import Mathlib

/-!
Verification development for a small RESP-style key/value server
(single source file Server.cpp).  Byte strings are modelled as
List Char, the C++ std::istringstream line reader as an explicit
stream state, the unordered_map store as an association list, and
machine integers as Int with the explicit bounds of int / long where
parsing can overflow.  Fallible operations (uncaught exceptions,
out-of-range std::vector element access) return Option, with none
marking the failure.
-/

namespace RedisCpp

/-- Byte strings of the server (std::string): any byte may occur. -/
abbrev Str := List Char

/-- The null character that std::string operator[] yields at position size(). -/
def nulChar : Char := Char.ofNat 0

/-- line[0] in the C++ source: first character, or the null character when
the string is empty. -/
def line0 (l : Str) : Char := l.headD nulChar

/-- toupper on one char (C locale): only lowercase ASCII letters change. -/
def cToUpper (c : Char) : Char :=
  if 97 ≤ c.toNat ∧ c.toNat ≤ 122 then Char.ofNat (c.toNat - 32) else c

/-- to_upper from Server.cpp: uppercase every character of the string. -/
def to_upper (s : Str) : Str := s.map cToUpper

/-- isspace of the C locale, used by std::stoi / std::stol. -/
def isCSpace (c : Char) : Bool :=
  c = ' ' ∨ c = '\t' ∨ c = '\n' ∨ c = Char.ofNat 11 ∨ c = Char.ofNat 12 ∨ c = '\r'

/-- Numeric value of a (nonempty) digit prefix. -/
def digitsToNat (ds : Str) : Nat :=
  ds.foldl (fun a c => 10 * a + (c.toNat - 48)) 0

/-- std::stoi / std::stol, base 10: skip C whitespace, optional sign, then a
nonempty run of digits; none models the thrown std::invalid_argument (no
digits) or std::out_of_range (outside [lo, hi]) exception.  Parsing stops at
the first non-digit, as strtol does. -/
def parseCLong (lo hi : Int) (s : Str) : Option Int :=
  let s1 := s.dropWhile isCSpace
  let p : Int × Str :=
    match s1 with
    | '-' :: r => (-1, r)
    | '+' :: r => (1, r)
    | _ => (1, s1)
  let ds := p.2.takeWhile Char.isDigit
  if ds = [] then none
  else
    let v : Int := p.1 * (digitsToNat ds : Int)
    if v < lo ∨ hi < v then none else some v

/-- std::stoi (int is 32-bit). -/
def stoiC (s : Str) : Option Int := parseCLong (-(2 ^ 31)) (2 ^ 31 - 1) s

/-- std::stol (long is 64-bit). -/
def stolC (s : Str) : Option Int := parseCLong (-(2 ^ 63)) (2 ^ 63 - 1) s

/-- State of the std::istringstream used by parse_resp: remaining input,
the string variable last written by std::getline, and the eof / fail flags
of the stream. -/
structure Iss where
  rem : Str
  line : Str
  eofb : Bool
  failb : Bool
deriving DecidableEq, Repr

/-- std::getline(iss, line): if the stream is already in an eof or fail
state the sentry fails, failbit is set and line is left unchanged.
Otherwise line is erased and characters are extracted up to a discarded
newline; hitting end of input with no characters extracted sets failbit,
hitting it after some characters only sets eofbit. -/
def getlineS (s : Iss) : Iss :=
  if s.failb ∨ s.eofb then { s with failb := true }
  else if s.rem = [] then ⟨[], [], true, true⟩
  else
    let l := s.rem.takeWhile (fun c => c != '\n')
    match s.rem.dropWhile (fun c => c != '\n') with
    | _ :: r2 => ⟨r2, l, false, false⟩
    | [] => ⟨[], l, true, false⟩

/-- The element loop of parse_resp: for each of the declared count, read
the length line; if it does not start with the bulk sigil, continue;
otherwise read the next line and push it as an argument. -/
def parseLoop : Nat → Iss → List Str → List Str
  | 0, _, acc => acc
  | Nat.succ i, s, acc =>
    let s1 := getlineS s
    if line0 s1.line = '$' then
      let s2 := getlineS s1
      parseLoop i s2 (acc ++ [s2.line])
    else parseLoop i s1 acc

/-- parse_resp from Server.cpp: read the first line; unless it starts with
the array sigil return the (empty) parts vector; convert the rest of that
line with std::stoi — this call is not inside any try block, so none here
models the uncaught exception that terminates the whole process — and run
the element loop that many times (a negative count runs it zero times). -/
def parse_resp (input : Str) : Option (List Str) :=
  let s1 := getlineS ⟨input, [], false, false⟩
  if line0 s1.line = '*' then
    match stoiC (s1.line.drop 1) with
    | none => none
    | some len => some (parseLoop len.toNat s1 [])
  else some []

/-- One stored entry: value, absolute expiry instant (steady_clock modelled
as Int milliseconds) and the flag saying whether the expiry is set. -/
structure ValueWithExpiry where
  value : Str
  expiry : Int
  has_expiry : Bool
deriving DecidableEq, Repr

/-- ValueWithExpiry(val): no expiry. -/
def mkValue (v : Str) : ValueWithExpiry := ⟨v, 0, false⟩

/-- ValueWithExpiry(val, px_millis): expiry = now + px_millis, flag set. -/
def mkValuePx (v : Str) (now px : Int) : ValueWithExpiry := ⟨v, now + px, true⟩

/-- is_expired from Server.cpp: false without expiry, otherwise true exactly
when the current instant is strictly past the stored expiry
(steady_clock::now() > expiry). -/
def is_expired (e : ValueWithExpiry) (now : Int) : Bool :=
  if e.has_expiry = false then false else decide (e.expiry < now)

/-- The kv_store std::unordered_map, as an association list with unique keys. -/
abbrev Store := List (Str × ValueWithExpiry)

/-- unordered_map::find followed by a value read. -/
def findStore : Store → Str → Option ValueWithExpiry
  | [], _ => none
  | (k, e) :: rest, key => if k = key then some e else findStore rest key

/-- kv_store[key] = e: replace the entry of an existing key, else add it. -/
def insertStore : Store → Str → ValueWithExpiry → Store
  | [], key, e => [(key, e)]
  | (k, e0) :: rest, key, e =>
    if k = key then (k, e) :: rest else (k, e0) :: insertStore rest key e

/-- kv_store.erase(it) for the iterator found for key. -/
def eraseStore : Store → Str → Store
  | [], _ => []
  | (k, e0) :: rest, key =>
    if k = key then rest else (k, e0) :: eraseStore rest key

def emptyCmdErr : Str := ("-ERR empty command\r\n").data

def pongReply : Str := ("+PONG\r\n").data

def okReply : Str := ("+OK\r\n").data

def nilReply : Str := ("$-1\r\n").data

def unknownCmdErr : Str := ("-ERR unknown command\r\n").data

/-- The quote character, kept out of string literals. -/
def sq : Char := Char.ofNat 39

def invalidExpireErr : Str :=
  ("-ERR invalid expire time in ").data ++ [sq] ++ ("set").data ++ [sq]
    ++ (" command\r\n").data

def crlf : Str := ['\r', '\n']

/-- The command dispatch of handle_command after computing
command = to_upper(parts[0]); rest holds parts[1..].  Every vector element
access parts[i] is modelled with get?; the none fallbacks mark an
out-of-range std::vector operator[] access (undefined behaviour in the
source).  The accesses inside conditions guarded by a size test
(parts[3] under size() >= 4) use getD, faithful because the guard makes
the default unreachable. -/
def dispatchCmd (command : Str) (rest : List Str) (now : Int) (st : Store) :
    Option (Str × Store) :=
  let n := rest.length + 1
  if command = ("PING").data then some (pongReply, st)
  else if command = ("ECHO").data ∧ 2 ≤ n then
    match rest.get? 0 with
    | some m => some ('+' :: (m ++ crlf), st)
    | none => none
  else if command = ("SET").data ∧ 2 ≤ n then
    if 4 ≤ n ∧ to_upper (rest.getD 2 []) = ("PX").data ∧ 5 ≤ n then
      match rest.get? 3, rest.get? 0, rest.get? 1 with
      | some pxArg, some key, some v =>
        match stolC pxArg with
        | some px => some (okReply, insertStore st key (mkValuePx v now px))
        | none => some (invalidExpireErr, st)
      | _, _, _ => none
    else
      match rest.get? 0, rest.get? 1 with
      | some key, some v => some (okReply, insertStore st key (mkValue v))
      | _, _ => none
  else if command = ("GET").data ∧ 2 ≤ n then
    match rest.get? 0 with
    | some key =>
      match findStore st key with
      | some e =>
        if is_expired e now = false then some ('+' :: (e.value ++ crlf), st)
        else some (nilReply, eraseStore st key)
      | none => some (nilReply, st)
    | none => none
  else some (unknownCmdErr, st)

/-- handle_command from Server.cpp: empty request gets the empty-command
error, otherwise dispatch on the uppercased command name.  The Int
argument is the steady_clock instant at which the command runs. -/
def handle_command (parts : List Str) (now : Int) (st : Store) :
    Option (Str × Store) :=
  match parts with
  | [] => some (emptyCmdErr, st)
  | p0 :: rest => dispatchCmd (to_upper p0) rest now st

/-- Position of the first CRLF pair, as incomplete_data.find of the
session loop computes it. -/
def findCRLF : Str → Option Nat
  | '\r' :: '\n' :: _ => some 0
  | _ :: rest => (findCRLF rest).map Nat.succ
  | [] => none

/-- The inner loop of handle_client: while the buffer holds a CRLF, split
off everything through the first CRLF, run it through parse_resp and
handle_command, and record the reply that is sent.  Returns the replies in
order, the final store and the bytes left buffered; none propagates a
process crash (uncaught parse exception) or an out-of-range access.  The
fuel bounds the number of iterations; any fuel at least the number of
CRLF pairs in the buffer is enough. -/
def process_buffer (fuel : Nat) (data : Str) (now : Int) (st : Store) :
    Option (List Str × Store × Str) :=
  match fuel, findCRLF data with
  | _, none => some ([], st, data)
  | 0, some _ => some ([], st, data)
  | Nat.succ fuel, some pos =>
    let command := data.take (pos + 2)
    let rest := data.drop (pos + 2)
    match parse_resp command with
    | none => none
    | some parts =>
      match handle_command parts now st with
      | none => none
      | some (resp, st2) =>
        match process_buffer fuel rest now st2 with
        | none => none
        | some (rs, st3, remBuf) => some (resp :: rs, st3, remBuf)

/-- Replacing a key and looking it up finds exactly the new entry. -/
theorem findStore_insertStore (st : Store) (k : Str) (e : ValueWithExpiry) :
    findStore (insertStore st k e) k = some e := by
  induction st with
  | nil => simp [insertStore, findStore]
  | cons hd tl ih =>
    obtain ⟨k0, e0⟩ := hd
    by_cases hk : k0 = k
    · simp [insertStore, findStore, hk]
    · simp [insertStore, findStore, hk, ih]

/-- C1: on the valid single-element frame whose declared 4-byte payload
contains a CRLF, the decoder of the source returns the corrupted argument
list with only the bytes before the CRLF (plus the carriage return kept by
getline), not the declared payload: decoding is delimiter-scanned, not
driven by the declared lengths. -/
theorem C1_eval :
    parse_resp (("*1\r\n$4\r\na\r\nb\r\n").data) = some [['a', '\r']] ∧
    [['a', '\r']] ≠ [("a\r\nb").data] :=
  ⟨rfl, by decide⟩

/-- C2: a SET request of exactly two elements reaches the unguarded
parts[2] element access of the source, which is out of the bounds of the
request vector; the none result marks that undefined access. -/
theorem C2_eval : handle_command [("SET").data, ("key").data] 0 [] = none := rfl

/-- C3 counterexample: with PX millis equal to -5 — which is an integer
but not a non-negative one — the source replies OK, not the invalid
expire time error, and overwrites the prior entry of the key. -/
theorem C3_cex :
    handle_command [("SET").data, ("k").data, ("v").data, ("PX").data, ("-5").data] 100
        [(("k").data, mkValue (("old").data))]
      = some (okReply, [(("k").data, mkValuePx (("v").data) 100 (-5))]) ∧
    okReply ≠ invalidExpireErr ∧
    ([(("k").data, mkValuePx (("v").data) 100 (-5))] : Store)
      ≠ [(("k").data, mkValue (("old").data))] :=
  ⟨rfl, by decide, by decide⟩

/-- C3 amended: the PX millis argument is parsed with std::stol, which
accepts any integer including negative ones; exactly when stol throws
(no digits, or out of the range of long) the reply is the invalid expire
time error and the store is left completely unchanged. -/
theorem C3_thm (k v px : Str) (st : Store) (now : Int) (h : stolC px = none) :
    handle_command [("SET").data, k, v, ("PX").data, px] now st
      = some (invalidExpireErr, st) := by
  show (match stolC px with
        | some p => some (okReply, insertStore st k (mkValuePx v now p))
        | none => some (invalidExpireErr, st)) = some (invalidExpireErr, st)
  rw [h]

/-- C3 witness: the non-numeric millis string abc fails stol and the
command leaves the (empty) store unchanged with the documented error. -/
theorem C3_wit :
    stolC (("abc").data) = none ∧
    handle_command [("SET").data, ("k").data, ("v").data, ("PX").data, ("abc").data] 0 []
      = some (invalidExpireErr, []) :=
  ⟨rfl, C3_thm (("k").data) (("v").data) (("abc").data) [] 0 rfl⟩

/-- C4 counterexample: two consecutive malformed (wrong-sigil) frames each
get the empty-command error reply and the session keeps processing — the
second malformed frame is still answered, so the connection is not closed
after the first and further requests are processed. -/
theorem C4_cex :
    process_buffer 3 (("?a\r\n?b\r\n").data) 0 []
      = some ([emptyCmdErr, emptyCmdErr], [], []) :=
  rfl

/-- C4 amended: a line whose first byte is not the array sigil makes
parse_resp return an empty argument vector without any error state, and
the session answers it with the empty-command error and keeps the
connection; a non-numeric array length makes the uncaught std::stoi
exception abort the whole process (none), with no error reply; a negative
array length just runs the element loop zero times, again yielding the
empty argument vector. -/
theorem C4_thm (c : Char) (l : Str) (now : Int) (st : Store) (h : c ≠ '*') :
    parse_resp (c :: l) = some [] ∧
    handle_command [] now st = some (emptyCmdErr, st) ∧
    parse_resp (("*abc\r\n").data) = none ∧
    parse_resp (("*-3\r\n").data) = some [] := by
  refine ⟨?_, rfl, rfl, rfl⟩
  by_cases hc : c = '\n'
  · subst hc; rfl
  · have hpred : ((fun x => x != '\n') c) = true := by simp [hc]
    have htw : (c :: l).takeWhile (fun x => x != '\n')
        = c :: l.takeWhile (fun x => x != '\n') := by
      simp [List.takeWhile_cons, hpred]
    have hdw : (c :: l).dropWhile (fun x => x != '\n')
        = l.dropWhile (fun x => x != '\n') := by
      simp [List.dropWhile_cons, hpred]
    have hne : (c :: l) ≠ ([] : List Char) := by simp
    cases hsplit : l.dropWhile (fun x => x != '\n') with
    | nil =>
      simp [parse_resp, getlineS, hne, htw, hdw, hsplit, line0, h]
    | cons d r =>
      simp [parse_resp, getlineS, hne, htw, hdw, hsplit, line0, h]

/-- C4 witness: a concrete wrong-sigil line is answered, not fatal. -/
theorem C4_wit :
    parse_resp ('?' :: ("x\r\n").data) = some [] ∧
    handle_command [] 0 [] = some (emptyCmdErr, []) ∧
    parse_resp (("*abc\r\n").data) = none ∧
    parse_resp (("*-3\r\n").data) = some [] :=
  C4_thm '?' (("x\r\n").data) 0 [] (by decide)

/-- C5: a buffer holding only the incomplete frame consisting of the array
header, one length line and a truncated payload is not left untouched: the
session consumes the first eight bytes (the two CRLF-terminated lines),
sends two error replies, and leaves only the last two bytes buffered. -/
theorem C5_eval :
    process_buffer 3 (("*1\r\n$4\r\nPI").data) 0 []
      = some ([emptyCmdErr, emptyCmdErr], [], ['P', 'I']) ∧
    (['P', 'I'] : Str) ≠ ("*1\r\n$4\r\nPI").data :=
  ⟨rfl, by decide⟩

/-- C6 counterexample: an entry whose expiry instant equals the current
instant is served, not deleted: GET at now = 100 on an entry expiring at
100 returns the value and leaves the store unchanged, while the claim
says expires_at less than or equal to now is expired and yields Nil. -/
theorem C6_cex :
    handle_command [("GET").data, ("k").data] 100
        [(("k").data, ValueWithExpiry.mk (("v").data) 100 true)]
      = some ('+' :: (("v").data ++ crlf),
          [(("k").data, ValueWithExpiry.mk (("v").data) 100 true)]) ∧
    ('+' :: (("v").data ++ crlf)) ≠ nilReply :=
  ⟨rfl, by decide⟩

/-- C6 amended: an entry with an expiry set is expired exactly when now is
strictly greater than expires_at.  When now is strictly past the expiry,
GET deletes the entry and replies Nil; when now is at or before the
expiry — including exactly at it — GET replies with the stored value and
leaves the store unchanged. -/
theorem C6_thm (k : Str) (e : ValueWithExpiry) (st : Store) (now : Int)
    (hf : findStore st k = some e) (he : e.has_expiry = true) :
    (e.expiry < now →
      handle_command [("GET").data, k] now st = some (nilReply, eraseStore st k)) ∧
    (now ≤ e.expiry →
      handle_command [("GET").data, k] now st
        = some ('+' :: (e.value ++ crlf), st)) := by
  have hred : handle_command [("GET").data, k] now st =
      (match findStore st k with
       | some e2 =>
         if is_expired e2 now = false then some ('+' :: (e2.value ++ crlf), st)
         else some (nilReply, eraseStore st k)
       | none => some (nilReply, st)) := rfl
  constructor
  · intro hlt
    rw [hred, hf]
    have hx : is_expired e now = true := by simp [is_expired, he, hlt]
    simp [hx]
  · intro hle
    rw [hred, hf]
    have hx : is_expired e now = false := by
      simp [is_expired, he]
      omega
    simp [hx]

/-- C6 witness: strictly past the expiry the entry is deleted and GET
replies Nil. -/
theorem C6_wit :
    handle_command [("GET").data, ("k").data] 200
        [(("k").data, ValueWithExpiry.mk (("v").data) 100 true)]
      = some (nilReply, []) :=
  (C6_thm (("k").data) (ValueWithExpiry.mk (("v").data) 100 true)
    [(("k").data, ValueWithExpiry.mk (("v").data) 100 true)] 200 rfl rfl).1
    (by decide)

/-- C7: a valid three-element SET stores the value with no expiry and
replies OK; a following GET for the same key — at any later instant,
since no expiry was set — returns exactly that value in the reply frame
the encoder of the source uses for bulk payloads; and GET for a key the
store does not hold replies Nil. -/
theorem C7_thm (k v : Str) (st : Store) (now now2 : Int) :
    handle_command [("SET").data, k, v] now st
      = some (okReply, insertStore st k (mkValue v)) ∧
    handle_command [("GET").data, k] now2 (insertStore st k (mkValue v))
      = some ('+' :: (v ++ crlf), insertStore st k (mkValue v)) ∧
    (findStore st k = none →
      handle_command [("GET").data, k] now st = some (nilReply, st)) := by
  refine ⟨rfl, ?_, ?_⟩
  · have hred : handle_command [("GET").data, k] now2 (insertStore st k (mkValue v)) =
        (match findStore (insertStore st k (mkValue v)) k with
         | some e2 =>
           if is_expired e2 now2 = false
           then some ('+' :: (e2.value ++ crlf), insertStore st k (mkValue v))
           else some (nilReply, eraseStore (insertStore st k (mkValue v)) k)
         | none => some (nilReply, insertStore st k (mkValue v))) := rfl
    rw [hred, findStore_insertStore]
    rfl
  · intro hn
    have hred : handle_command [("GET").data, k] now st =
        (match findStore st k with
         | some e2 =>
           if is_expired e2 now = false then some ('+' :: (e2.value ++ crlf), st)
           else some (nilReply, eraseStore st k)
         | none => some (nilReply, st)) := rfl
    rw [hred, hn]

/-- C7 witness: SET then GET round-trips a concrete pair, and GET on the
empty store is Nil. -/
theorem C7_wit :
    handle_command [("SET").data, ("a").data, ("b").data] 0 []
      = some (okReply, [(("a").data, mkValue (("b").data))]) ∧
    handle_command [("GET").data, ("a").data] 5 [(("a").data, mkValue (("b").data))]
      = some ('+' :: (("b").data ++ crlf), [(("a").data, mkValue (("b").data))]) ∧
    handle_command [("GET").data, ("a").data] 0 [] = some (nilReply, []) := by
  have h := C7_thm (("a").data) (("b").data) [] 0 5
  exact ⟨h.1, h.2.1, h.2.2 rfl⟩

/-- C8: a SET carrying no PX option replaces the entry for the key
wholesale: whatever entry — with or without expiry — the store held for
that key before, afterwards the key is mapped to exactly the new value
with the expiry flag clear. -/
theorem C8_thm (k v : Str) (st : Store) (now : Int) :
    handle_command [("SET").data, k, v] now st
      = some (okReply, insertStore st k (ValueWithExpiry.mk v 0 false)) ∧
    findStore (insertStore st k (ValueWithExpiry.mk v 0 false)) k
      = some (ValueWithExpiry.mk v 0 false) :=
  ⟨rfl, findStore_insertStore st k (ValueWithExpiry.mk v 0 false)⟩

/-- C9: two requests whose command names have the same uppercasing are
handled identically — same reply, same store effect — and a command name
whose uppercasing is none of PING, ECHO, SET, GET gets the unknown-command
error with the store untouched. -/
theorem C9_thm (c1 c2 p : Str) (rest : List Str) (now : Int) (st : Store)
    (hcase : to_upper c1 = to_upper c2)
    (h1 : to_upper p ≠ ("PING").data) (h2 : to_upper p ≠ ("ECHO").data)
    (h3 : to_upper p ≠ ("SET").data) (h4 : to_upper p ≠ ("GET").data) :
    handle_command (c1 :: rest) now st = handle_command (c2 :: rest) now st ∧
    handle_command (p :: rest) now st = some (unknownCmdErr, st) := by
  constructor
  · show dispatchCmd (to_upper c1) rest now st = dispatchCmd (to_upper c2) rest now st
    rw [hcase]
  · show dispatchCmd (to_upper p) rest now st = some (unknownCmdErr, st)
    simp [dispatchCmd, h1, h2, h3, h4]

/-- C9 witness: sEt behaves as SET, and FOO is unknown. -/
theorem C9_wit :
    handle_command [("sEt").data, ("k").data, ("v").data] 0 []
      = handle_command [("SET").data, ("k").data, ("v").data] 0 [] ∧
    handle_command [("FOO").data, ("k").data, ("v").data] 0 []
      = some (unknownCmdErr, []) :=
  C9_thm (("sEt").data) (("SET").data) (("FOO").data) [("k").data, ("v").data] 0 []
    (by decide) (by decide) (by decide) (by decide) (by decide)

/-!
Concurrency model for the SET critical section.  Two connection threads
each run the SET branch of handle_command for the same key: lock_guard
acquires kv_mutex on entering the block, the assignment
kv_store[key] = ValueWithExpiry(value) copies the value bytes into the
entry — not atomically, so it is modelled byte by byte — and the
lock_guard releases kv_mutex when the block is left.  A thread is
identified by a Bool; thread false writes the first value, thread true
the second.  The scheduler may interleave the threads arbitrarily;
acquiring the mutex is only possible while no thread holds it.
-/

/-- Progress of one thread through its SET critical section. -/
inductive SetPhase where
  | start : SetPhase
  | writing : Nat → SetPhase
  | done : SetPhase
deriving DecidableEq, Repr

/-- Shared state of the race: the kv_mutex owner, both thread phases, and
the bytes currently stored in the entry of the contended key. -/
structure RaceState where
  lockHolder : Option Bool
  phase : Bool → SetPhase
  entry : Str

/-- Pointwise update of one thread phase. -/
def updPhase (f : Bool → SetPhase) (i : Bool) (p : SetPhase) : Bool → SetPhase :=
  fun j => if j = i then p else f j

/-- The values the two threads write. -/
def setVal (a b : Str) : Bool → Str := fun i => cond i b a

/-- One scheduler step: some thread acquires the free mutex and begins the
entry overwrite, copies its next value byte while holding the mutex, or
finishes and releases the mutex. -/
inductive SetStep (vals : Bool → Str) : RaceState → RaceState → Prop where
  | acquire (s : RaceState) (i : Bool) :
      s.lockHolder = none → s.phase i = SetPhase.start →
      SetStep vals s ⟨some i, updPhase s.phase i (SetPhase.writing 0), []⟩
  | writeByte (s : RaceState) (i : Bool) (n : Nat) (h : n < (vals i).length) :
      s.lockHolder = some i → s.phase i = SetPhase.writing n →
      SetStep vals s
        ⟨some i, updPhase s.phase i (SetPhase.writing (n + 1)),
          s.entry ++ [(vals i).get ⟨n, h⟩]⟩
  | release (s : RaceState) (i : Bool) :
      s.lockHolder = some i → s.phase i = SetPhase.writing (vals i).length →
      SetStep vals s ⟨none, updPhase s.phase i SetPhase.done, s.entry⟩

/-- Interleaved execution: any finite schedule of steps. -/
def RaceReach (vals : Bool → Str) (s0 s : RaceState) : Prop :=
  Relation.ReflTransGen (SetStep vals) s0 s

/-- Both threads at their SET, mutex free, any prior entry bytes. -/
def raceInit (e0 : Str) : RaceState := ⟨none, fun _ => SetPhase.start, e0⟩

/-- Invariant: while a thread holds kv_mutex the entry is exactly the
prefix of that thread's value copied so far and the other thread is not
inside the critical section; while the mutex is free, either nobody wrote
yet, or the entry is exactly the whole value of a finished thread. -/
def RaceInv (vals : Bool → Str) (s : RaceState) : Prop :=
  (∀ i, s.lockHolder = some i →
    ((∃ n, n ≤ (vals i).length ∧ s.phase i = SetPhase.writing n ∧
        s.entry = (vals i).take n) ∧
      (s.phase (!i) = SetPhase.start ∨ s.phase (!i) = SetPhase.done))) ∧
  (s.lockHolder = none →
    ((∀ j, s.phase j = SetPhase.start) ∨
      (∃ i, s.phase i = SetPhase.done ∧ s.entry = vals i)))

theorem updPhase_same (f : Bool → SetPhase) (i : Bool) (p : SetPhase) :
    updPhase f i p i = p := by simp [updPhase]

theorem updPhase_other (f : Bool → SetPhase) (i : Bool) (p : SetPhase) (j : Bool)
    (h : j ≠ i) : updPhase f i p j = f j := by simp [updPhase, h]

theorem bool_ne_imp (j i : Bool) (h : j ≠ i) : j = !i := by
  cases j <;> cases i <;> simp at h ⊢

/-- Every step preserves the race invariant; in particular no thread can
enter the critical section while the other holds kv_mutex. -/
theorem raceInv_step (vals : Bool → Str) (s s2 : RaceState)
    (hinv : RaceInv vals s) (hstep : SetStep vals s s2) : RaceInv vals s2 := by
  cases hstep with
  | acquire i hl hp =>
    refine ⟨?_, ?_⟩
    · intro j hj
      have hij : i = j := by simpa using hj
      subst hij
      refine ⟨⟨0, Nat.zero_le _, ?_, ?_⟩, ?_⟩
      · exact updPhase_same s.phase i (SetPhase.writing 0)
      · rfl
      · rcases hinv.2 hl with hall | ⟨j2, hdone, _⟩
        · refine Or.inl ?_
          show updPhase s.phase i (SetPhase.writing 0) (!i) = SetPhase.start
          rw [updPhase_other _ _ _ _ (Bool.not_ne_self i)]
          exact hall (!i)
        · by_cases hji : j2 = i
          · subst hji; rw [hp] at hdone; exact absurd hdone (by simp)
          · have hj2 : j2 = !i := bool_ne_imp j2 i hji
            subst hj2
            refine Or.inr ?_
            show updPhase s.phase i (SetPhase.writing 0) (!i) = SetPhase.done
            rw [updPhase_other _ _ _ _ (Bool.not_ne_self i)]
            exact hdone
    · intro hnone; exact absurd hnone (by simp)
  | writeByte i n h hl hp =>
    obtain ⟨⟨m, hm, hpm, hent⟩, hoth⟩ := hinv.1 i hl
    rw [hp] at hpm
    injection hpm with hnm
    subst hnm
    refine ⟨?_, ?_⟩
    · intro j hj
      have hij : i = j := by simpa using hj
      subst hij
      refine ⟨⟨n + 1, h, updPhase_same _ _ _, ?_⟩, ?_⟩
      · show s.entry ++ [(vals i).get ⟨n, h⟩] = (vals i).take (n + 1)
        rw [hent, List.get_eq_getElem]
        exact List.take_concat_get' (vals i) n h
      · have hred : (RaceState.mk (some i)
            (updPhase s.phase i (SetPhase.writing (n + 1)))
            (s.entry ++ [(vals i).get ⟨n, h⟩])).phase (!i) = s.phase (!i) :=
          updPhase_other _ _ _ _ (Bool.not_ne_self i)
        rw [hred]
        exact hoth
    · intro hnone; exact absurd hnone (by simp)
  | release i hl hp =>
    obtain ⟨⟨m, hm, hpm, hent⟩, _⟩ := hinv.1 i hl
    rw [hp] at hpm
    injection hpm with hnm
    refine ⟨?_, ?_⟩
    · intro j hj; exact absurd hj (by simp)
    · intro _
      refine Or.inr ⟨i, updPhase_same _ _ _, ?_⟩
      show s.entry = vals i
      rw [hent, ← hnm, List.take_length]

/-- The invariant holds along every schedule. -/
theorem raceInv_reach (vals : Bool → Str) (s0 s : RaceState)
    (h0 : RaceInv vals s0) (hr : RaceReach vals s0 s) : RaceInv vals s := by
  induction hr with
  | refl => exact h0
  | tail hab hbc ih => exact raceInv_step vals _ _ ih hbc

/-- The initial state satisfies the invariant. -/
theorem raceInit_inv (vals : Bool → Str) (e0 : Str) : RaceInv vals (raceInit e0) := by
  refine ⟨?_, ?_⟩
  · intro i hi; exact absurd hi (by simp [raceInit])
  · intro _; exact Or.inl (fun j => rfl)

/-- C10: kv_mutex serializes the two SET critical sections — in every
interleaved schedule in which both threads have completed their SET of
the same key, one writing the value a and the other b, the stored entry
is exactly a or exactly b in its entirety, never a mix of bytes of the
two writes. -/
theorem C10_thm (a b e0 : Str) (s : RaceState)
    (hr : RaceReach (setVal a b) (raceInit e0) s)
    (hd0 : s.phase false = SetPhase.done) (hd1 : s.phase true = SetPhase.done) :
    s.entry = a ∨ s.entry = b := by
  have hinv := raceInv_reach (setVal a b) (raceInit e0) s (raceInit_inv _ _) hr
  cases hlock : s.lockHolder with
  | some i =>
    obtain ⟨⟨n, _, hpn, _⟩, _⟩ := hinv.1 i hlock
    cases i
    · rw [hd0] at hpn; exact absurd hpn (by simp)
    · rw [hd1] at hpn; exact absurd hpn (by simp)
  | none =>
    rcases hinv.2 hlock with hall | ⟨i, _, hentry⟩
    · rw [hall false] at hd0; exact absurd hd0 (by simp)
    · cases i
      · exact Or.inl hentry
      · exact Or.inr hentry

/-- C10 witness: a concrete schedule — thread false writes its byte A,
releases, then thread true writes its byte B — ends with both threads
done and the entry exactly one of the two written values. -/
theorem C10_wit :
    (RaceState.mk none
        (updPhase (updPhase (updPhase (updPhase (updPhase (updPhase
            (fun _ => SetPhase.start)
            false (SetPhase.writing 0)) false (SetPhase.writing 1))
            false SetPhase.done) true (SetPhase.writing 0))
            true (SetPhase.writing 1)) true SetPhase.done)
        (['B'])).entry = ['A'] ∨
    (RaceState.mk none
        (updPhase (updPhase (updPhase (updPhase (updPhase (updPhase
            (fun _ => SetPhase.start)
            false (SetPhase.writing 0)) false (SetPhase.writing 1))
            false SetPhase.done) true (SetPhase.writing 0))
            true (SetPhase.writing 1)) true SetPhase.done)
        (['B'])).entry = ['B'] := by
  refine C10_thm (['A']) (['B']) [] _ ?_ ?_ ?_
  · refine Relation.ReflTransGen.head (SetStep.acquire _ false rfl rfl) ?_
    refine Relation.ReflTransGen.head
      (SetStep.writeByte _ false 0 (by decide) rfl (by rfl)) ?_
    refine Relation.ReflTransGen.head (SetStep.release _ false rfl (by rfl)) ?_
    refine Relation.ReflTransGen.head (SetStep.acquire _ true rfl (by rfl)) ?_
    refine Relation.ReflTransGen.head
      (SetStep.writeByte _ true 0 (by decide) rfl (by rfl)) ?_
    refine Relation.ReflTransGen.head (SetStep.release _ true rfl (by rfl)) ?_
    exact Relation.ReflTransGen.refl
  · rfl
  · rfl

end RedisCpp
